import Mathlib

/-!
Shallow embedding, in Lean 4, of the jitter-solving and covariance-propagation
core of the StereoPipeline repository, covering:

* `src/asp/Tools/jitter_solve.cc` — the observation window resolver, the
  reprojection residual, the initial outlier filter, and the residual-block
  registration;
* `src/asp/Camera/Covariance.cc` — the scaled triangulation Jacobian, the
  scaled satellite covariance assembly, and the covariance propagation;
* `src/asp/Sessions/CameraUtils.cc` — the camera-loading loop and its
  single-threaded-camera flag.

Doubles are modelled by exact rationals; the places where IEEE NaN behaviour
matters for a claim use an explicit NaN-propagating wrapper type.  External
collaborators (camera projection, imaging-time queries, ray triangulation) are
passed in as function parameters, exactly as the source calls out to them.
-/

namespace StereoPipeline

/-!
## Observation window resolver

Embeds `run_jitter_solve` in `jitter_solve.cc`, lines 476-520.  For one
observation the source computes two imaging times at the observed line offset
by `± line_extra`, converts each to a raw sample index with
`static_cast<int>((time - t0) / dt)` (truncation toward zero), builds the
half-open index window `[min - 8/2 + 1, max + 8/2 + 1)`, clamps it to
`[0, count)`, and throws a book-keeping error when the clamped window is
empty.  The same procedure runs once for the quaternion sequence and once for
the position sequence.
-/

/-- Truncation of a rational toward zero, the semantics of the C++
`static_cast<int>` applied to a double quotient. -/
def ratTrunc (x : ℚ) : ℤ :=
  if x < 0 then ⌈x⌉ else ⌊x⌋

/-- Sampling metadata of one trajectory sequence: start time `t0`, fixed step
`dt`, number of samples `count`.  In the source these are `m_t0Quat`,
`m_dtQuat` and `m_quaternions.size() / NUM_QUAT_PARAMS` for the quaternion
sequence, and `m_t0Ephem`, `m_dtEphem`, `m_positions.size() / NUM_XYZ_PARAMS`
for the position sequence. -/
structure SampleSeq where
  t0 : ℚ
  dt : ℚ
  count : ℤ

/-- Fixed window size: `numQuatPerObs = 8` and `numPosPerObs = 8` in the
source. -/
def numSamplesPerObs : ℤ := 8

/-- Raw trajectory index of an imaging time:
`static_cast<int>((time - t0) / dt)` in the source. -/
def rawIndex (s : SampleSeq) (time : ℚ) : ℤ :=
  ratTrunc ((time - s.t0) / s.dt)

/-- Clamped start of the sample window:
`std::max(0, std::min(index1, index2) - numPerObs / 2 + 1)`. -/
def windowBeg (s : SampleSeq) (time1 time2 : ℚ) : ℤ :=
  max 0 (min (rawIndex s time1) (rawIndex s time2) - numSamplesPerObs / 2 + 1)

/-- Clamped (exclusive) end of the sample window:
`std::min(std::max(index1, index2) + numPerObs / 2 + 1, count)`. -/
def windowEnd (s : SampleSeq) (time1 time2 : ℚ) : ℤ :=
  min (max (rawIndex s time1) (rawIndex s time2) + numSamplesPerObs / 2 + 1) s.count

/-- Window resolution for one sample sequence: the clamped window, or the
book-keeping error thrown by the source when the clamped window is empty. -/
def windowFor (s : SampleSeq) (time1 time2 : ℚ) : Except String (ℤ × ℤ) :=
  if windowBeg s time1 time2 ≥ windowEnd s time1 time2 then
    Except.error "Book-keeping error"
  else
    Except.ok (windowBeg s time1 time2, windowEnd s time1 time2)

/-- Guard band in pixel rows around the observed line:
`line_extra = opt.max_init_reproj_error + 5.0` in the source. -/
def lineExtra (maxInitReprojError : ℚ) : ℚ :=
  maxInitReprojError + 5

/-- Window resolution for one observation: imaging times are taken at the
observed line offset by `± lineExtra` through the external imaging-time query
`imgTime` (`getImageTime` of the linescan model), then the quaternion window
and the position window are resolved independently, in the order of the
source. -/
def observationWindows (imgTime : ℚ → ℚ) (maxInitReprojError obsLine : ℚ)
    (quatSeq posSeq : SampleSeq) : Except String ((ℤ × ℤ) × (ℤ × ℤ)) := do
  let time1 := imgTime (obsLine - lineExtra maxInitReprojError)
  let time2 := imgTime (obsLine + lineExtra maxInitReprojError)
  let qw ← windowFor quatSeq time1 time2
  let pw ← windowFor posSeq time1 time2
  return (qw, pw)

/-- Window resolution following the words of the specification instead of the
source: raw indices via `floor((time - t0) / dt)`, and the raw index interval
widened by half of the fixed window size 8 on each side before clamping.
Stated only to be compared against `windowFor`. -/
def claimWindowFor (s : SampleSeq) (time1 time2 : ℚ) : Except String (ℤ × ℤ) :=
  let i1 : ℤ := ⌊(time1 - s.t0) / s.dt⌋
  let i2 : ℤ := ⌊(time2 - s.t0) / s.dt⌋
  let b := max 0 (min i1 i2 - numSamplesPerObs / 2)
  let e := min (max i1 i2 + numSamplesPerObs / 2 + 1) s.count
  if b ≥ e then Except.error "Book-keeping error" else Except.ok (b, e)

lemma ratTrunc_nonpos {x : ℚ} (h : x ≤ 0) : ratTrunc x ≤ 0 := by
  unfold ratTrunc
  split
  · exact Int.ceil_le.mpr (by exact_mod_cast h)
  · calc ⌊x⌋ ≤ ⌊(0 : ℚ)⌋ := Int.floor_le_floor h
    _ = 0 := Int.floor_zero

lemma windowFor_eq_ok {s : SampleSeq} {t1 t2 : ℚ} {b e : ℤ}
    (h : windowFor s t1 t2 = Except.ok (b, e)) :
    b = windowBeg s t1 t2 ∧ e = windowEnd s t1 t2 ∧
      windowBeg s t1 t2 < windowEnd s t1 t2 := by
  unfold windowFor at h
  split at h
  · exact absurd h (by simp)
  · rename_i hlt
    refine ⟨?_, ?_, by omega⟩ <;>
      cases h <;> rfl

lemma windowFor_err_iff {s : SampleSeq} {t1 t2 : ℚ} :
    (∃ msg, windowFor s t1 t2 = Except.error msg) ↔
      windowEnd s t1 t2 ≤ windowBeg s t1 t2 := by
  unfold windowFor
  split
  · rename_i hge
    exact ⟨fun _ => by omega, fun _ => ⟨"Book-keeping error", rfl⟩⟩
  · rename_i hlt
    constructor
    · rintro ⟨msg, hmsg⟩
      exact absurd hmsg (by simp)
    · omega

lemma windowBeg_nonneg (s : SampleSeq) (t1 t2 : ℚ) : 0 ≤ windowBeg s t1 t2 :=
  le_max_left 0 _

lemma windowEnd_le_count (s : SampleSeq) (t1 t2 : ℚ) :
    windowEnd s t1 t2 ≤ s.count :=
  min_le_right _ _

lemma windowBeg_eq_zero {s : SampleSeq} (t1 t2 : ℚ)
    (hdt : 0 < s.dt) (h1 : t1 ≤ s.t0) : windowBeg s t1 t2 = 0 := by
  have hraw : rawIndex s t1 ≤ 0 := by
    apply ratTrunc_nonpos
    apply div_nonpos_of_nonpos_of_nonneg
    · linarith
    · linarith
  have hmin : min (rawIndex s t1) (rawIndex s t2) ≤ 0 :=
    le_trans (min_le_left _ _) hraw
  unfold windowBeg numSamplesPerObs at *
  omega

/-- Claim C1, counterexample: at a concrete observation the window computed by
the source differs from the window prescribed by the words of the claim
(floor-based conversion, widening by half of the window size on each side):
the source returns the window `[37, 65)` where the claim prescribes
`[36, 65)`. -/
theorem c1_counterexample :
    windowFor ⟨0, 1, 100⟩ 40 60 ≠ claimWindowFor ⟨0, 1, 100⟩ 40 60 := by
  have h1 : windowFor ⟨0, 1, 100⟩ 40 60 = Except.ok (37, 65) := by
    unfold windowFor windowBeg windowEnd rawIndex ratTrunc numSamplesPerObs
    norm_num
  have h2 : claimWindowFor ⟨0, 1, 100⟩ 40 60 = Except.ok (36, 65) := by
    unfold claimWindowFor numSamplesPerObs
    norm_num
  rw [h1, h2]
  intro h
  simp only [Except.ok.injEq, Prod.mk.injEq] at h
  omega

/-- Claim C1, amended: for every observation, the resolver computes imaging
times at the observed line offset by `± lineExtra`
(`lineExtra = max-initial-reprojection-error + 5`), converts each time to a
raw index by truncating `(time - t0) / dt` toward zero (the C++ `int` cast),
returns the half-open window from `min index - 8/2 + 1` to
`max index + 8/2 + 1` clamped to `[0, count)`, independently for the
quaternion and the position sequences; on success the windows satisfy
`0 ≤ beg < end ≤ count`, and an observation whose lower guard-band imaging
time is at or before `t0` (in particular one whose time equals `t0`, for the
increasing timing of a linescan camera with positive `dt`) yields `beg = 0`;
the resolver fails with the book-keeping error if and only if one of the two
clamped windows is empty. -/
theorem c1_window_resolver (imgTime : ℚ → ℚ) (maxErr obsLine : ℚ)
    (quatSeq posSeq : SampleSeq) :
    (∀ qb qe pb pe,
      observationWindows imgTime maxErr obsLine quatSeq posSeq =
          Except.ok ((qb, qe), (pb, pe)) →
        (qb = windowBeg quatSeq (imgTime (obsLine - lineExtra maxErr))
                (imgTime (obsLine + lineExtra maxErr)) ∧
         qe = windowEnd quatSeq (imgTime (obsLine - lineExtra maxErr))
                (imgTime (obsLine + lineExtra maxErr)) ∧
         pb = windowBeg posSeq (imgTime (obsLine - lineExtra maxErr))
                (imgTime (obsLine + lineExtra maxErr)) ∧
         pe = windowEnd posSeq (imgTime (obsLine - lineExtra maxErr))
                (imgTime (obsLine + lineExtra maxErr))) ∧
        (0 ≤ qb ∧ qb < qe ∧ qe ≤ quatSeq.count) ∧
        (0 ≤ pb ∧ pb < pe ∧ pe ≤ posSeq.count) ∧
        (0 < quatSeq.dt → imgTime (obsLine - lineExtra maxErr) ≤ quatSeq.t0 →
          qb = 0) ∧
        (0 < posSeq.dt → imgTime (obsLine - lineExtra maxErr) ≤ posSeq.t0 →
          pb = 0)) ∧
    ((∃ msg, observationWindows imgTime maxErr obsLine quatSeq posSeq =
        Except.error msg) ↔
      (windowEnd quatSeq (imgTime (obsLine - lineExtra maxErr))
          (imgTime (obsLine + lineExtra maxErr)) ≤
        windowBeg quatSeq (imgTime (obsLine - lineExtra maxErr))
          (imgTime (obsLine + lineExtra maxErr)) ∨
       windowEnd posSeq (imgTime (obsLine - lineExtra maxErr))
          (imgTime (obsLine + lineExtra maxErr)) ≤
        windowBeg posSeq (imgTime (obsLine - lineExtra maxErr))
          (imgTime (obsLine + lineExtra maxErr)))) := by
  constructor
  · intro qb qe pb pe hok
    unfold observationWindows at hok
    simp only [bind, Except.bind] at hok
    cases hq : windowFor quatSeq (imgTime (obsLine - lineExtra maxErr))
        (imgTime (obsLine + lineExtra maxErr)) with
    | error m => rw [hq] at hok; exact absurd hok (by simp)
    | ok qw =>
      rw [hq] at hok
      cases hp : windowFor posSeq (imgTime (obsLine - lineExtra maxErr))
          (imgTime (obsLine + lineExtra maxErr)) with
      | error m => rw [hp] at hok; exact absurd hok (by simp)
      | ok pw =>
        rw [hp] at hok
        obtain ⟨qw1, qw2⟩ := qw
        obtain ⟨pw1, pw2⟩ := pw
        simp only [pure, Except.pure, Except.ok.injEq, Prod.mk.injEq] at hok
        obtain ⟨⟨hqb, hqe⟩, hpb, hpe⟩ := hok
        subst hqb hqe hpb hpe
        obtain ⟨hq1, hq2, hqlt⟩ := windowFor_eq_ok hq
        obtain ⟨hp1, hp2, hplt⟩ := windowFor_eq_ok hp
        subst hq1 hq2 hp1 hp2
        refine ⟨⟨rfl, rfl, rfl, rfl⟩, ?_, ?_, ?_, ?_⟩
        · exact ⟨windowBeg_nonneg _ _ _, hqlt, windowEnd_le_count _ _ _⟩
        · exact ⟨windowBeg_nonneg _ _ _, hplt, windowEnd_le_count _ _ _⟩
        · intro hdt ht1; exact windowBeg_eq_zero _ _ hdt ht1
        · intro hdt ht1; exact windowBeg_eq_zero _ _ hdt ht1
  · unfold observationWindows
    simp only [bind, Except.bind]
    cases hq : windowFor quatSeq (imgTime (obsLine - lineExtra maxErr))
        (imgTime (obsLine + lineExtra maxErr)) with
    | error m =>
      have h1 : windowEnd quatSeq (imgTime (obsLine - lineExtra maxErr))
          (imgTime (obsLine + lineExtra maxErr)) ≤
          windowBeg quatSeq (imgTime (obsLine - lineExtra maxErr))
          (imgTime (obsLine + lineExtra maxErr)) :=
        windowFor_err_iff.mp ⟨m, hq⟩
      simp only [h1, true_or, iff_true]
      exact ⟨m, rfl⟩
    | ok qw =>
      have h1 := @windowFor_err_iff quatSeq
        (imgTime (obsLine - lineExtra maxErr))
        (imgTime (obsLine + lineExtra maxErr))
      cases hp : windowFor posSeq (imgTime (obsLine - lineExtra maxErr))
          (imgTime (obsLine + lineExtra maxErr)) with
      | error m =>
        have h2 : windowEnd posSeq (imgTime (obsLine - lineExtra maxErr))
            (imgTime (obsLine + lineExtra maxErr)) ≤
            windowBeg posSeq (imgTime (obsLine - lineExtra maxErr))
            (imgTime (obsLine + lineExtra maxErr)) :=
          windowFor_err_iff.mp ⟨m, hp⟩
        simp only [h2, or_true, iff_true]
        exact ⟨m, rfl⟩
      | ok pw =>
        constructor
        · rintro ⟨msg, hmsg⟩
          exact absurd hmsg (by simp [pure, Except.pure])
        · intro hcase
          cases hcase with
          | inl hcl =>
            obtain ⟨msg, hmsg⟩ := h1.mpr hcl
            rw [hq] at hmsg
            exact absurd hmsg (by simp)
          | inr hcl =>
            obtain ⟨msg, hmsg⟩ := windowFor_err_iff.mpr hcl
            rw [hp] at hmsg
            exact absurd hmsg (by simp)

/-- Witness for the amended claim C1 at a concrete observation: timing is the
identity, `maxErr = 5`, observed line 10, both sequences sample from `t0 = 0`
with `dt = 1` and 40 samples; the resolver succeeds with both windows equal to
`[0, 25)`, and the lower guard-band time `0` is at `t0`, so both windows are
clamped to begin at 0. -/
theorem c1_window_resolver_witness :
    ((0 : ℤ) ≤ 0 ∧ (0 : ℤ) < 25 ∧ (25 : ℤ) ≤ 40) ∧ (0 : ℤ) = 0 := by
  have h := (c1_window_resolver id 5 10 ⟨0, 1, 40⟩ ⟨0, 1, 40⟩).1 0 25 0 25
    (by
      unfold observationWindows windowFor windowBeg windowEnd rawIndex
        ratTrunc numSamplesPerObs lineExtra
      norm_num [bind, Except.bind, pure, Except.pure])
  exact ⟨h.2.1, h.2.2.2.1 (by norm_num) (by norm_num [lineExtra])⟩

/-!
## Reprojection residual

Embeds `pixelReprojectionError` in `jitter_solve.cc`, lines 63-157.  The
evaluation copies the linescan model, overwrites the quaternion samples with
indices in `[begQuatIndex, endQuatIndex)` and the position samples with
indices in `[begPosIndex, endPosIndex)` from the parameter blocks, reads the
triangulated point from the block after them, projects with the external
`groundToImage` at precision `1e-12` (a thrown projection is modelled by
`none`), and returns the pixel difference together with the boolean that the
functor returns to the optimizer.  Arrays are modelled as total maps from the
flat double index used by the source (`NUM_QUAT_PARAMS * qi + coord` and
`NUM_XYZ_PARAMS * pi + coord`).
-/

/-- Number of coordinates of a position sample (`NUM_XYZ_PARAMS = 3`). -/
def NUM_XYZ_PARAMS : ℕ := 3

/-- Number of coordinates of a quaternion sample (`NUM_QUAT_PARAMS = 4`). -/
def NUM_QUAT_PARAMS : ℕ := 4

/-- Fixed penalty residual used when projection fails
(`g_big_pixel_value = 1000.0`). -/
def g_big_pixel_value : ℚ := 1000

/-- Projection precision passed to `groundToImage`
(`desired_precision = 1e-12`). -/
def desired_precision : ℚ := 1 / 10 ^ 12

/-- Linescan sensor model state relevant to the solve: the flat quaternion and
position arrays of `UsgsAstroLsSensorModel`. -/
structure UsgsAstroLsSensorModel where
  m_quaternions : ℕ → ℚ
  m_positions : ℕ → ℚ

/-- Inner overwrite loop: writes values `v coord` at flat indices
`stride * qi + coord` for `coord` running from `c` over `len` steps. -/
def writeCoords (stride qi : ℕ) (v : ℕ → ℚ) (a : ℕ → ℚ) (c len : ℕ) : ℕ → ℚ :=
  match len with
  | 0 => a
  | Nat.succ n =>
    writeCoords stride qi v (Function.update a (stride * qi + c) (v c)) (c + 1) n

/-- One sample overwrite: the loop `for coord in [0, stride)` of the source. -/
def writeSample (stride : ℕ) (a : ℕ → ℚ) (qi : ℕ) (v : ℕ → ℚ) : ℕ → ℚ :=
  writeCoords stride qi v a 0 stride

/-- Outer overwrite loop: the loop `for qi in [s, s + len)` of the source,
writing sample `qi` from `w qi`. -/
def overwriteSamples (stride : ℕ) (a : ℕ → ℚ) (s len : ℕ) (w : ℕ → ℕ → ℚ) :
    ℕ → ℚ :=
  match len with
  | 0 => a
  | Nat.succ n => overwriteSamples stride (writeSample stride a s (w s)) (s + 1) n w

/-- Modified private copy of the model built by `pixelReprojectionError`:
quaternion samples in `[begQuatIndex, endQuatIndex)` come from the parameter
blocks `0, ..., endQuatIndex - begQuatIndex - 1` and position samples in
`[begPosIndex, endPosIndex)` from the blocks shifted by
`endQuatIndex - begQuatIndex`, exactly as in the source loops. -/
def updatedLsModel (cam : UsgsAstroLsSensorModel) (parameters : ℕ → ℕ → ℚ)
    (begQuatIndex endQuatIndex begPosIndex endPosIndex : ℕ) :
    UsgsAstroLsSensorModel :=
  { m_quaternions :=
      overwriteSamples NUM_QUAT_PARAMS cam.m_quaternions begQuatIndex
        (endQuatIndex - begQuatIndex)
        (fun qi coord => parameters (qi - begQuatIndex) coord),
    m_positions :=
      overwriteSamples NUM_XYZ_PARAMS cam.m_positions begPosIndex
        (endPosIndex - begPosIndex)
        (fun pi coord =>
          parameters (pi + (endQuatIndex - begQuatIndex) - begPosIndex) coord) }

/-- Triangulated point read from the parameter block after the quaternion and
position blocks. -/
def paramPoint (parameters : ℕ → ℕ → ℚ)
    (begQuatIndex endQuatIndex begPosIndex endPosIndex : ℕ) : ℚ × ℚ × ℚ :=
  ((parameters ((endQuatIndex - begQuatIndex) + (endPosIndex - begPosIndex)) 0),
   (parameters ((endQuatIndex - begQuatIndex) + (endPosIndex - begPosIndex)) 1),
   (parameters ((endQuatIndex - begQuatIndex) + (endPosIndex - begPosIndex)) 2))

/-- Residual assembly from a projection outcome: the catch branch substitutes
the fixed penalty in both components and still returns `true`; the normal
branch returns projected minus observed pixel and `true`. -/
def pixelResidualOfProjection (observation : ℚ × ℚ) (proj : Option (ℚ × ℚ)) :
    (ℚ × ℚ) × Bool :=
  match proj with
  | none => ((g_big_pixel_value, g_big_pixel_value), true)
  | some pix => ((pix.1 - observation.1, pix.2 - observation.2), true)

/-- Evaluation of `pixelReprojectionError::operator()`: builds the private
modified copy, projects the candidate point through it at precision
`desired_precision`, and assembles the residual. -/
def pixelReprojectionErrorEval
    (groundToImage : UsgsAstroLsSensorModel → (ℚ × ℚ × ℚ) → ℚ → Option (ℚ × ℚ))
    (observation : ℚ × ℚ) (ls_model : UsgsAstroLsSensorModel)
    (begQuatIndex endQuatIndex begPosIndex endPosIndex : ℕ)
    (parameters : ℕ → ℕ → ℚ) : (ℚ × ℚ) × Bool :=
  pixelResidualOfProjection observation
    (groundToImage
      (updatedLsModel ls_model parameters begQuatIndex endQuatIndex
        begPosIndex endPosIndex)
      (paramPoint parameters begQuatIndex endQuatIndex begPosIndex endPosIndex)
      desired_precision)

lemma writeCoords_outside (stride qi : ℕ) (v : ℕ → ℚ) (a : ℕ → ℚ)
    (c len j : ℕ) (h : ∀ c0, c ≤ c0 → c0 < c + len → j ≠ stride * qi + c0) :
    writeCoords stride qi v a c len j = a j := by
  induction len generalizing a c with
  | zero => rfl
  | succ n ih =>
    rw [writeCoords, ih]
    · exact Function.update_noteq (h c (le_refl c) (by omega)) _ _
    · intro c0 h1 h2
      exact h c0 (by omega) (by omega)

lemma writeCoords_at (stride qi : ℕ) (v : ℕ → ℚ) (a : ℕ → ℚ)
    (c len c0 : ℕ) (h1 : c ≤ c0) (h2 : c0 < c + len) :
    writeCoords stride qi v a c len (stride * qi + c0) = v c0 := by
  induction len generalizing a c with
  | zero => omega
  | succ n ih =>
    rw [writeCoords]
    by_cases hc : c0 = c
    · subst hc
      rw [writeCoords_outside]
      · exact Function.update_same _ _ _
      · intro c1 hc1 hc2 heq
        exact absurd (Nat.add_left_cancel heq) (by omega)
    · exact ih _ _ (by omega) (by omega)

lemma writeSample_outside (stride : ℕ) (a : ℕ → ℚ) (qi : ℕ) (v : ℕ → ℚ)
    (j : ℕ) (h : j < stride * qi ∨ stride * qi + stride ≤ j) :
    writeSample stride a qi v j = a j := by
  apply writeCoords_outside
  intro c0 _ hc0 heq
  subst heq
  rcases h with h | h
  · omega
  · omega

lemma writeSample_at (stride : ℕ) (a : ℕ → ℚ) (qi : ℕ) (v : ℕ → ℚ)
    (coord : ℕ) (h : coord < stride) :
    writeSample stride a qi v (stride * qi + coord) = v coord :=
  writeCoords_at stride qi v a 0 stride coord (Nat.zero_le coord) (by omega)

lemma overwriteSamples_outside (stride : ℕ) (a : ℕ → ℚ) (s len : ℕ)
    (w : ℕ → ℕ → ℚ) (j : ℕ)
    (h : ∀ qi, s ≤ qi → qi < s + len →
      j < stride * qi ∨ stride * qi + stride ≤ j) :
    overwriteSamples stride a s len w j = a j := by
  induction len generalizing a s with
  | zero => rfl
  | succ n ih =>
    rw [overwriteSamples, ih]
    · exact writeSample_outside stride a s (w s) j (h s (le_refl s) (by omega))
    · intro qi h1 h2
      exact h qi (by omega) (by omega)

lemma overwriteSamples_at (stride : ℕ) (a : ℕ → ℚ) (s len : ℕ)
    (w : ℕ → ℕ → ℚ) (qi coord : ℕ) (h1 : s ≤ qi) (h2 : qi < s + len)
    (h3 : coord < stride) :
    overwriteSamples stride a s len w (stride * qi + coord) = w qi coord := by
  induction len generalizing a s with
  | zero => omega
  | succ n ih =>
    rw [overwriteSamples]
    by_cases hq : qi = s
    · subst hq
      rw [overwriteSamples_outside]
      · exact writeSample_at stride a qi (w qi) coord h3
      · intro qi2 hq1 hq2
        left
        calc stride * qi + coord < stride * qi + stride := by omega
        _ = stride * (qi + 1) := by ring
        _ ≤ stride * qi2 := Nat.mul_le_mul_left stride (by omega)
    · exact ih _ _ (by omega) (by omega)

/-- Claim C2: if projecting the candidate point through the locally modified
camera copy throws (modelled as `none`), the residual evaluation sets both
residual components to the fixed penalty `g_big_pixel_value = 1000` and still
reports success (`true`); otherwise the residual is projected pixel minus
observed pixel, with the projection performed at the tolerance
`desired_precision = 1e-12`; the evaluation reports success in every case, so
a geometry failure is never propagated as a hard failure. -/
theorem c2_projection_failure_policy
    (groundToImage : UsgsAstroLsSensorModel → (ℚ × ℚ × ℚ) → ℚ → Option (ℚ × ℚ))
    (observation : ℚ × ℚ) (ls_model : UsgsAstroLsSensorModel)
    (begQ endQ begP endP : ℕ) (parameters : ℕ → ℕ → ℚ) :
    ((pixelReprojectionErrorEval groundToImage observation ls_model
        begQ endQ begP endP parameters).2 = true) ∧
    (groundToImage (updatedLsModel ls_model parameters begQ endQ begP endP)
        (paramPoint parameters begQ endQ begP endP) desired_precision = none →
      (pixelReprojectionErrorEval groundToImage observation ls_model
          begQ endQ begP endP parameters).1 =
        (g_big_pixel_value, g_big_pixel_value)) ∧
    (∀ pix,
      groundToImage (updatedLsModel ls_model parameters begQ endQ begP endP)
          (paramPoint parameters begQ endQ begP endP) desired_precision =
        some pix →
      (pixelReprojectionErrorEval groundToImage observation ls_model
          begQ endQ begP endP parameters).1 =
        (pix.1 - observation.1, pix.2 - observation.2)) ∧
    desired_precision = 1 / 10 ^ 12 := by
  refine ⟨?_, ?_, ?_, rfl⟩
  · unfold pixelReprojectionErrorEval pixelResidualOfProjection
    cases groundToImage (updatedLsModel ls_model parameters begQ endQ begP endP)
      (paramPoint parameters begQ endQ begP endP) desired_precision <;> rfl
  · intro hnone
    unfold pixelReprojectionErrorEval pixelResidualOfProjection
    rw [hnone]
  · intro pix hsome
    unfold pixelReprojectionErrorEval pixelResidualOfProjection
    rw [hsome]

/-- Witness for claim C2 at a concrete projection outcome: a projection that
returns pixel `(3, 4)` against the observation `(1, 1)` yields the residual
`(3 - 1, 4 - 1)`, and a throwing projection yields `(1000, 1000)` with
success; both hypotheses are discharged by `rfl`. -/
theorem c2_projection_failure_policy_witness :
    (pixelReprojectionErrorEval (fun _ _ _ => some (3, 4)) (1, 1)
        ⟨fun _ => 0, fun _ => 0⟩ 0 0 0 0 (fun _ _ => 0)).1 =
      ((3 : ℚ) - 1, (4 : ℚ) - 1) ∧
    (pixelReprojectionErrorEval (fun _ _ _ => none) (1, 1)
        ⟨fun _ => 0, fun _ => 0⟩ 0 0 0 0 (fun _ _ => 0)).1 =
      (g_big_pixel_value, g_big_pixel_value) :=
  ⟨(c2_projection_failure_policy (fun _ _ _ => some (3, 4)) (1, 1)
      ⟨fun _ => 0, fun _ => 0⟩ 0 0 0 0 (fun _ _ => 0)).2.2.1 (3, 4) rfl,
   (c2_projection_failure_policy (fun _ _ _ => none) (1, 1)
      ⟨fun _ => 0, fun _ => 0⟩ 0 0 0 0 (fun _ _ => 0)).2.1 rfl⟩

/-- Claim C8: the residual evaluation works on a private modified copy of the
linescan model; in that copy exactly the quaternion samples with indices in
`[begQuatIndex, endQuatIndex)` and the position samples with indices in
`[begPosIndex, endPosIndex)` are overwritten from the supplied parameter
blocks (positions reading from the blocks shifted past the quaternion
blocks), every flat array entry outside those windows keeps its prior value,
and the evaluation output is assembled purely from the projection through
that copy, so the original model is never mutated. -/
theorem c8_residual_private_copy (cam : UsgsAstroLsSensorModel)
    (parameters : ℕ → ℕ → ℚ) (begQ endQ begP endP : ℕ) :
    (∀ qi coord, begQ ≤ qi → qi < endQ → coord < NUM_QUAT_PARAMS →
      (updatedLsModel cam parameters begQ endQ begP endP).m_quaternions
          (NUM_QUAT_PARAMS * qi + coord) =
        parameters (qi - begQ) coord) ∧
    (∀ j, j < NUM_QUAT_PARAMS * begQ ∨ NUM_QUAT_PARAMS * endQ ≤ j →
      (updatedLsModel cam parameters begQ endQ begP endP).m_quaternions j =
        cam.m_quaternions j) ∧
    (∀ pi coord, begP ≤ pi → pi < endP → coord < NUM_XYZ_PARAMS →
      (updatedLsModel cam parameters begQ endQ begP endP).m_positions
          (NUM_XYZ_PARAMS * pi + coord) =
        parameters (pi + (endQ - begQ) - begP) coord) ∧
    (∀ j, j < NUM_XYZ_PARAMS * begP ∨ NUM_XYZ_PARAMS * endP ≤ j →
      (updatedLsModel cam parameters begQ endQ begP endP).m_positions j =
        cam.m_positions j) ∧
    (∀ groundToImage observation,
      pixelReprojectionErrorEval groundToImage observation cam
          begQ endQ begP endP parameters =
        pixelResidualOfProjection observation
          (groundToImage (updatedLsModel cam parameters begQ endQ begP endP)
            (paramPoint parameters begQ endQ begP endP) desired_precision)) := by
  refine ⟨?_, ?_, ?_, ?_, fun _ _ => rfl⟩
  · intro qi coord h1 h2 h3
    exact overwriteSamples_at NUM_QUAT_PARAMS cam.m_quaternions begQ
      (endQ - begQ) _ qi coord h1 (by omega) h3
  · intro j hj
    apply overwriteSamples_outside
    intro qi h1 h2
    rcases hj with hj | hj
    · left
      calc j < NUM_QUAT_PARAMS * begQ := hj
      _ ≤ NUM_QUAT_PARAMS * qi := Nat.mul_le_mul_left _ h1
    · right
      calc NUM_QUAT_PARAMS * qi + NUM_QUAT_PARAMS
          = NUM_QUAT_PARAMS * (qi + 1) := by ring
      _ ≤ NUM_QUAT_PARAMS * endQ := Nat.mul_le_mul_left _ (by omega)
      _ ≤ j := hj
  · intro pi coord h1 h2 h3
    exact overwriteSamples_at NUM_XYZ_PARAMS cam.m_positions begP
      (endP - begP) _ pi coord h1 (by omega) h3
  · intro j hj
    apply overwriteSamples_outside
    intro pi h1 h2
    rcases hj with hj | hj
    · left
      calc j < NUM_XYZ_PARAMS * begP := hj
      _ ≤ NUM_XYZ_PARAMS * pi := Nat.mul_le_mul_left _ h1
    · right
      calc NUM_XYZ_PARAMS * pi + NUM_XYZ_PARAMS
          = NUM_XYZ_PARAMS * (pi + 1) := by ring
      _ ≤ NUM_XYZ_PARAMS * endP := Nat.mul_le_mul_left _ (by omega)
      _ ≤ j := hj

/-- Witness for claim C8 at a concrete window: quaternion window `[1, 3)`,
position window `[0, 2)`, base arrays equal to the flat index, parameter
block `b` holding value `10 b + coord`; the copy holds the parameter value at
quaternion sample 2 coordinate 1 (flat index 9, block 1) and at position
sample 1 coordinate 2 (flat index 5, block 3), keeps flat quaternion entry 0
and flat position entry 6 at their prior values, and the evaluation equals
the residual of the projection through the copy. -/
theorem c8_residual_private_copy_witness :
    (updatedLsModel ⟨fun j => j, fun j => j⟩
        (fun b coord => 10 * b + coord) 1 3 0 2).m_quaternions 9 = 11 ∧
    (updatedLsModel ⟨fun j => j, fun j => j⟩
        (fun b coord => 10 * b + coord) 1 3 0 2).m_positions 5 = 32 ∧
    (updatedLsModel ⟨fun j => j, fun j => j⟩
        (fun b coord => 10 * b + coord) 1 3 0 2).m_quaternions 0 = 0 ∧
    (updatedLsModel ⟨fun j => j, fun j => j⟩
        (fun b coord => 10 * b + coord) 1 3 0 2).m_positions 6 = 6 := by
  have h := c8_residual_private_copy ⟨fun j => j, fun j => j⟩
    (fun b coord => 10 * b + coord) 1 3 0 2
  refine ⟨?_, ?_, ?_, ?_⟩
  · have h1 := h.1 2 1 (by omega) (by omega) (by norm_num [NUM_QUAT_PARAMS])
    norm_num [NUM_QUAT_PARAMS] at h1
    exact h1
  · have h1 := h.2.2.1 1 2 (by omega) (by omega) (by norm_num [NUM_XYZ_PARAMS])
    norm_num [NUM_XYZ_PARAMS] at h1
    exact h1
  · have h1 := h.2.1 0 (by norm_num [NUM_QUAT_PARAMS])
    exact h1
  · have h1 := h.2.2.2.1 6 (by norm_num [NUM_XYZ_PARAMS])
    exact h1

/-!
## Initial outlier filter and residual-block registration

Embeds `run_jitter_solve` in `jitter_solve.cc`, lines 416-453 (the screening
pass that fills the set `outliers`) and lines 459-467 (the skip of outliers
when residual blocks are added).  The double loop over cameras and features
is modelled as one list of observations in iteration order; the external
`point_to_pixel` projection returns `none` where the source projection
throws.  The source accepts an observation when
`norm_2(pix - observation) <= opt.max_init_reproj_error`; with the positive
threshold enforced by `handle_arguments` this is equivalent to the
square-free comparison of squared norms used here, which keeps the test
decidable over the rationals.
-/

/-- One pixel observation: camera index `icam`, tie-point index `ipt`
(`m_point_id`), observed pixel `m_location`. -/
structure Obs where
  icam : ℕ
  ipt : ℕ
  location : ℚ × ℚ

/-- Squared Euclidean norm of a pixel difference. -/
def normSq (p : ℚ × ℚ) : ℚ := p.1 ^ 2 + p.2 ^ 2

/-- Acceptance test of the screening pass for one observation: project the
triangulated point with the current camera; a thrown projection or a
reprojection error above the threshold rejects the observation. -/
def obsIsGood (point_to_pixel : ℕ → (ℚ × ℚ × ℚ) → Option (ℚ × ℚ))
    (tri_points : ℕ → ℚ × ℚ × ℚ) (max_init_reproj_error : ℚ) (o : Obs) :
    Bool :=
  match point_to_pixel o.icam (tri_points o.ipt) with
  | none => false
  | some pix =>
    decide (normSq (pix.1 - o.location.1, pix.2 - o.location.2) ≤
      max_init_reproj_error ^ 2)

/-- Screening pass: walk the observations in iteration order, skip
observations whose tie point is already flagged, and flag the entire tie
point of every remaining observation that fails the acceptance test. -/
def flagOutliers (point_to_pixel : ℕ → (ℚ × ℚ × ℚ) → Option (ℚ × ℚ))
    (tri_points : ℕ → ℚ × ℚ × ℚ) (max_init_reproj_error : ℚ)
    (outliers : Finset ℕ) (obsList : List Obs) : Finset ℕ :=
  obsList.foldl
    (fun out o =>
      if o.ipt ∈ out then out
      else if obsIsGood point_to_pixel tri_points max_init_reproj_error o then
        out
      else insert o.ipt out)
    outliers

/-- Residual-block registration: the second loop adds a cost function for an
observation exactly when its tie point is not in the outlier set. -/
def addedResidualBlocks (outliers : Finset ℕ) (obsList : List Obs) :
    List Obs :=
  obsList.filter (fun o => decide (o.ipt ∉ outliers))

lemma flagOutliers_cons (ptp : ℕ → (ℚ × ℚ × ℚ) → Option (ℚ × ℚ))
    (tri : ℕ → ℚ × ℚ × ℚ) (maxErr : ℚ) (out : Finset ℕ) (o : Obs)
    (t : List Obs) :
    flagOutliers ptp tri maxErr out (o :: t) =
      flagOutliers ptp tri maxErr
        (if o.ipt ∈ out then out
         else if obsIsGood ptp tri maxErr o then out else insert o.ipt out)
        t := rfl

lemma flagOutliers_append (ptp : ℕ → (ℚ × ℚ × ℚ) → Option (ℚ × ℚ))
    (tri : ℕ → ℚ × ℚ × ℚ) (maxErr : ℚ) (out : Finset ℕ)
    (l1 l2 : List Obs) :
    flagOutliers ptp tri maxErr out (l1 ++ l2) =
      flagOutliers ptp tri maxErr (flagOutliers ptp tri maxErr out l1) l2 :=
  List.foldl_append _ _ l1 l2

lemma flagOutliers_mono (ptp : ℕ → (ℚ × ℚ × ℚ) → Option (ℚ × ℚ))
    (tri : ℕ → ℚ × ℚ × ℚ) (maxErr : ℚ) (out : Finset ℕ) (l : List Obs) :
    out ⊆ flagOutliers ptp tri maxErr out l := by
  induction l generalizing out with
  | nil => exact Finset.Subset.refl out
  | cons o t ih =>
    rw [flagOutliers_cons]
    refine Finset.Subset.trans ?_ (ih _)
    split
    · exact Finset.Subset.refl out
    · split
      · exact Finset.Subset.refl out
      · exact Finset.subset_insert _ out

lemma flagOutliers_pass (ptp : ℕ → (ℚ × ℚ × ℚ) → Option (ℚ × ℚ))
    (tri : ℕ → ℚ × ℚ × ℚ) (maxErr : ℚ) (l : List Obs) (o : Obs) :
    ∀ out : Finset ℕ, o ∈ l →
      o.ipt ∉ flagOutliers ptp tri maxErr out l →
      obsIsGood ptp tri maxErr o = true := by
  induction l with
  | nil => intro out ho _; cases ho
  | cons a t ih =>
    intro out ho hnot
    rw [flagOutliers_cons] at hnot
    rcases List.mem_cons.mp ho with rfl | hmem
    · by_cases hin : o.ipt ∈ out
      · exact absurd (flagOutliers_mono ptp tri maxErr _ t
          (by rw [if_pos hin]; exact hin)) hnot
      · by_cases hgood : obsIsGood ptp tri maxErr o = true
        · exact hgood
        · refine absurd (flagOutliers_mono ptp tri maxErr _ t ?_) hnot
          rw [if_neg hin, if_neg (by simpa using hgood)]
          exact Finset.mem_insert_self o.ipt out
    · exact ih _ hmem hnot

lemma flagOutliers_noop (ptp : ℕ → (ℚ × ℚ × ℚ) → Option (ℚ × ℚ))
    (tri : ℕ → ℚ × ℚ × ℚ) (maxErr : ℚ) (out : Finset ℕ) (l : List Obs)
    (h : ∀ o ∈ l, o.ipt ∈ out ∨ obsIsGood ptp tri maxErr o = true) :
    flagOutliers ptp tri maxErr out l = out := by
  induction l with
  | nil => rfl
  | cons a t ih =>
    rw [flagOutliers_cons]
    have hrest := fun o ho => h o (List.mem_cons_of_mem a ho)
    by_cases hin : a.ipt ∈ out
    · rw [if_pos hin]
      exact ih hrest
    · rcases h a (List.mem_cons_self a t) with hin2 | hgood
      · exact absurd hin2 hin
      · rw [if_neg hin, if_pos hgood]
        exact ih hrest

/-- Claim C3: during initial outlier filtering, every observation whose tie
point is not already flagged when it is processed and whose projection
throws or reprojects with error above the threshold causes its entire tie
point to be inserted into the outlier set, and a residual block is added for
an observation exactly when the observation occurs in the list and its tie
point is not in the final outlier set, so no residual block of an outlier
tie point reaches the solver problem. -/
theorem c3_initial_outlier_filter
    (ptp : ℕ → (ℚ × ℚ × ℚ) → Option (ℚ × ℚ)) (tri : ℕ → ℚ × ℚ × ℚ)
    (maxErr : ℚ) (l : List Obs) :
    (∀ l1 o l2, l = l1 ++ o :: l2 →
      o.ipt ∉ flagOutliers ptp tri maxErr ∅ l1 →
      obsIsGood ptp tri maxErr o = false →
      o.ipt ∈ flagOutliers ptp tri maxErr ∅ l) ∧
    (∀ o, o ∈ addedResidualBlocks (flagOutliers ptp tri maxErr ∅ l) l ↔
      o ∈ l ∧ o.ipt ∉ flagOutliers ptp tri maxErr ∅ l) := by
  constructor
  · intro l1 o l2 hsplit hnot hbad
    subst hsplit
    rw [flagOutliers_append, flagOutliers_cons, if_neg hnot,
      if_neg (by simp [hbad])]
    exact flagOutliers_mono ptp tri maxErr _ l2
      (Finset.mem_insert_self o.ipt _)
  · intro o
    simp [addedResidualBlocks, List.mem_filter]

/-- Witness for claim C3 at a concrete network: both observations belong to
tie point 7, the camera projects the point to pixel `(0, 50)`, the first
observation sits at `(0, 0)` so its reprojection error 50 exceeds the
threshold 5; tie point 7 enters the outlier set and the second observation
of the same tie point (which itself reprojects perfectly) is not added as a
residual block. -/
theorem c3_initial_outlier_filter_witness :
    7 ∈ flagOutliers (fun _ _ => some (0, 50)) (fun _ => (0, 0, 0)) 5 ∅
        [⟨0, 7, (0, 0)⟩, ⟨1, 7, (0, 50)⟩] ∧
    (⟨1, 7, (0, 50)⟩ : Obs) ∉
      addedResidualBlocks
        (flagOutliers (fun _ _ => some (0, 50)) (fun _ => (0, 0, 0)) 5 ∅
          [⟨0, 7, (0, 0)⟩, ⟨1, 7, (0, 50)⟩])
        [⟨0, 7, (0, 0)⟩, ⟨1, 7, (0, 50)⟩] := by
  have h := c3_initial_outlier_filter (fun _ _ => some (0, 50))
    (fun _ => (0, 0, 0)) 5 [⟨0, 7, (0, 0)⟩, ⟨1, 7, (0, 50)⟩]
  have hbad : obsIsGood (fun _ _ => some (0, 50)) (fun _ => (0, 0, 0)) 5
      ⟨0, 7, (0, 0)⟩ = false := by
    unfold obsIsGood normSq
    norm_num
  have hmem : (7 : ℕ) ∈ flagOutliers (fun _ _ => some (0, 50))
      (fun _ => (0, 0, 0)) 5 ∅ [⟨0, 7, (0, 0)⟩, ⟨1, 7, (0, 50)⟩] :=
    h.1 [] ⟨0, 7, (0, 0)⟩ [⟨1, 7, (0, 50)⟩] rfl (by simp [flagOutliers]) hbad
  refine ⟨hmem, ?_⟩
  intro hblk
  exact ((h.2 ⟨1, 7, (0, 50)⟩).mp hblk).2 hmem

/-- Claim C9: the screening pass is idempotent: running it a second time over
the same cameras, observations and triangulated points, starting from the
outlier set produced by the first run, returns that same outlier set. -/
theorem c9_outlier_filter_idempotent
    (ptp : ℕ → (ℚ × ℚ × ℚ) → Option (ℚ × ℚ)) (tri : ℕ → ℚ × ℚ × ℚ)
    (maxErr : ℚ) (l : List Obs) :
    flagOutliers ptp tri maxErr (flagOutliers ptp tri maxErr ∅ l) l =
      flagOutliers ptp tri maxErr ∅ l := by
  apply flagOutliers_noop
  intro o ho
  by_cases h : o.ipt ∈ flagOutliers ptp tri maxErr ∅ l
  · exact Or.inl h
  · exact Or.inr (flagOutliers_pass ptp tri maxErr l o ∅ ho h)

/-!
## Camera loading and the single-threaded flag

Embeds `load_cameras` in `CameraUtils.cc`, lines 77-113, and the thread-count
configuration in `jitter_solve.cc` (lines 284-287 for residual evaluation and
lines 633-636 for the solver).  In the source loop the global flag is
assigned, not accumulated: `single_threaded_camera =
local_single_threaded_camera;` runs once per camera, so after the loop the
flag holds the value of the last camera only.
-/

/-- Result of the `load_cameras` loop for the output flag
`single_threaded_camera`: initialized to `false`, then overwritten by each
per-camera value in turn. -/
def load_cameras_single_threaded (camera_flags : List Bool) : Bool :=
  camera_flags.foldl (fun _ localFlag => localFlag) false

/-- Thread count given to the Ceres solver options
(`options.num_threads`). -/
def solverNumThreads (single_threaded_cameras : Bool) (num_threads : ℕ) : ℕ :=
  if single_threaded_cameras then 1 else num_threads

/-- Thread count given to residual evaluation
(`eval_options.num_threads` in `compute_residuals`). -/
def evalNumThreads (single_threaded_cameras : Bool) (num_threads : ℕ) : ℕ :=
  if single_threaded_cameras then 1 else num_threads

/-- Claim C7, evaluation of the code at the failing input: with two cameras
whose sessions report single-threaded then multi-threaded support, at least
one participating camera is not safe for concurrent evaluation, yet the loop
leaves the global flag `false` (each iteration overwrites the flag, so only
the last camera counts), and both the solver and residual evaluation are then
configured with the full worker count instead of one. -/
theorem c7_code_evaluation :
    load_cameras_single_threaded [true, false] = false ∧
    [true, false].any id = true ∧
    solverNumThreads (load_cameras_single_threaded [true, false]) 8 = 8 ∧
    evalNumThreads (load_cameras_single_threaded [true, false]) 8 = 8 := by
  decide

/-!
## Scaled triangulation Jacobian

Embeds `scaledTriangulationJacobian` in `Covariance.cc`, lines 95-244,
together with the perturbation book-keeping of `positionDelta` and
`quatDelta` (lines 48-92).  The external ray/center queries of the 15 cameras
(nominal at index 0, then positive and negative perturbations in alternating
order) are supplied as indexed families of vectors, and the external
`vw::stereo::triangulate_pair` as a function of the two rays and two centers;
this matches the code, which queries all 15 cameras first and then
triangulates selected combinations.  Adjusted cameras apply one common
rotation and shift to every entry of each family before this point, so they
are covered by the generality of the families.
-/

/-- Change in satellite position used for numerical differencing
(`deltaPosition = 0.01`). -/
def deltaPosition : ℚ := 1 / 100

/-- Change in satellite orientation used for numerical differencing
(`deltaQuat = 1.0e-6`). -/
def deltaQuat : ℚ := 1 / 1000000

/-- Number of nominal and perturbed cameras (`numCamsForCovariance`). -/
def numCamsForCovariance : ℕ := 15

/-- Index into the camera-1 families for the plus-perturbed variant of
perturbation `coord`: `2 * coord + 1` while camera-1 variables are perturbed
(`coord < 7`), the nominal index 0 otherwise. -/
def selPlus1 (coord : ℕ) : ℕ := if coord < 7 then 2 * coord + 1 else 0

/-- Index into the camera-1 families for the minus-perturbed variant. -/
def selMinus1 (coord : ℕ) : ℕ := if coord < 7 then 2 * coord + 2 else 0

/-- Index into the camera-2 families for the plus-perturbed variant:
nominal while camera-1 variables are perturbed, `2 * (coord - 7) + 1`
otherwise. -/
def selPlus2 (coord : ℕ) : ℕ := if coord < 7 then 0 else 2 * (coord - 7) + 1

/-- Index into the camera-2 families for the minus-perturbed variant. -/
def selMinus2 (coord : ℕ) : ℕ := if coord < 7 then 0 else 2 * (coord - 7) + 2

/-- The 3×14 scaled triangulation Jacobian: for each perturbation index, the
two selected triangulations are differenced against the nominal one, rotated
into the NED frame at the nominal triangulated point, and halved; the source
stores the resulting `ned_diff` vector as column `coord` of `J`. -/
def scaledTriangulationJacobian
    (triangulate : (Fin 3 → ℚ) → (Fin 3 → ℚ) → (Fin 3 → ℚ) → (Fin 3 → ℚ) →
      (Fin 3 → ℚ))
    (EcefToNed : Matrix (Fin 3) (Fin 3) ℚ)
    (cam1_dirs cam1_ctrs cam2_dirs cam2_ctrs : ℕ → Fin 3 → ℚ) :
    Matrix (Fin 3) (Fin 14) ℚ :=
  let tri_nominal :=
    triangulate (cam1_dirs 0) (cam1_ctrs 0) (cam2_dirs 0) (cam2_ctrs 0)
  Matrix.of fun row coord =>
    let tri_plus :=
      triangulate (cam1_dirs (selPlus1 coord)) (cam1_ctrs (selPlus1 coord))
        (cam2_dirs (selPlus2 coord)) (cam2_ctrs (selPlus2 coord))
    let tri_minus :=
      triangulate (cam1_dirs (selMinus1 coord)) (cam1_ctrs (selMinus1 coord))
        (cam2_dirs (selMinus2 coord)) (cam2_ctrs (selMinus2 coord))
    let ned_plus := EcefToNed.mulVec (tri_plus - tri_nominal)
    let ned_minus := EcefToNed.mulVec (tri_minus - tri_nominal)
    (ned_plus row - ned_minus row) / 2

/-- Claim C4: column `coord` of the scaled Jacobian equals
`EcefToNed * ((tri_plus - tri_nominal) - (tri_minus - tri_nominal)) / 2` with
the other camera held at its nominal rays and centers (camera 2 nominal for
`coord < 7`, camera 1 nominal for `coord >= 7`), deliberately not divided by
`deltaPosition` or `deltaQuat`; consequently a column whose perturbation
leaves the relevant camera's rays and centers unchanged is zero. -/
theorem c4_jacobian_columns
    (triangulate : (Fin 3 → ℚ) → (Fin 3 → ℚ) → (Fin 3 → ℚ) → (Fin 3 → ℚ) →
      (Fin 3 → ℚ))
    (EcefToNed : Matrix (Fin 3) (Fin 3) ℚ)
    (d1 c1 d2 c2 : ℕ → Fin 3 → ℚ) (coord : Fin 14) :
    ((coord : ℕ) < 7 → ∀ row,
      scaledTriangulationJacobian triangulate EcefToNed d1 c1 d2 c2 row coord =
        EcefToNed.mulVec
          ((triangulate (d1 (2 * coord + 1)) (c1 (2 * coord + 1)) (d2 0) (c2 0)
              - triangulate (d1 0) (c1 0) (d2 0) (c2 0))
           - (triangulate (d1 (2 * coord + 2)) (c1 (2 * coord + 2)) (d2 0) (c2 0)
              - triangulate (d1 0) (c1 0) (d2 0) (c2 0))) row / 2) ∧
    (7 ≤ (coord : ℕ) → ∀ row,
      scaledTriangulationJacobian triangulate EcefToNed d1 c1 d2 c2 row coord =
        EcefToNed.mulVec
          ((triangulate (d1 0) (c1 0) (d2 (2 * ((coord : ℕ) - 7) + 1))
              (c2 (2 * ((coord : ℕ) - 7) + 1))
              - triangulate (d1 0) (c1 0) (d2 0) (c2 0))
           - (triangulate (d1 0) (c1 0) (d2 (2 * ((coord : ℕ) - 7) + 2))
              (c2 (2 * ((coord : ℕ) - 7) + 2))
              - triangulate (d1 0) (c1 0) (d2 0) (c2 0))) row / 2) ∧
    ((coord : ℕ) < 7 →
      d1 (2 * coord + 1) = d1 0 → c1 (2 * coord + 1) = c1 0 →
      d1 (2 * coord + 2) = d1 0 → c1 (2 * coord + 2) = c1 0 →
      ∀ row,
        scaledTriangulationJacobian triangulate EcefToNed d1 c1 d2 c2 row coord
          = 0) ∧
    (7 ≤ (coord : ℕ) →
      d2 (2 * ((coord : ℕ) - 7) + 1) = d2 0 →
      c2 (2 * ((coord : ℕ) - 7) + 1) = c2 0 →
      d2 (2 * ((coord : ℕ) - 7) + 2) = d2 0 →
      c2 (2 * ((coord : ℕ) - 7) + 2) = c2 0 →
      ∀ row,
        scaledTriangulationJacobian triangulate EcefToNed d1 c1 d2 c2 row coord
          = 0) := by
  refine ⟨?_, ?_, ?_, ?_⟩
  · intro h7 row
    simp only [scaledTriangulationJacobian, Matrix.of_apply, selPlus1,
      selMinus1, selPlus2, selMinus2, if_pos h7, Matrix.mulVec_sub,
      Pi.sub_apply]
  · intro h7 row
    have hn : ¬((coord : ℕ) < 7) := by omega
    simp only [scaledTriangulationJacobian, Matrix.of_apply, selPlus1,
      selMinus1, selPlus2, selMinus2, if_neg hn, Matrix.mulVec_sub,
      Pi.sub_apply]
  · intro h7 hd1p hc1p hd1m hc1m row
    simp only [scaledTriangulationJacobian, Matrix.of_apply, selPlus1,
      selMinus1, selPlus2, selMinus2, if_pos h7, hd1p, hc1p, hd1m, hc1m,
      sub_self, Matrix.mulVec_zero, Pi.zero_apply, zero_sub, neg_zero,
      zero_div]
  · intro h7 hd2p hc2p hd2m hc2m row
    have hn : ¬((coord : ℕ) < 7) := by omega
    simp only [scaledTriangulationJacobian, Matrix.of_apply, selPlus1,
      selMinus1, selPlus2, selMinus2, if_neg hn, hd2p, hc2p, hd2m, hc2m,
      sub_self, Matrix.mulVec_zero, Pi.zero_apply, zero_sub, neg_zero,
      zero_div]

/-- Witness for claim C4 at a concrete configuration: triangulation is the
componentwise sum of its four inputs, the rotation is the identity, the
camera-1 families are constant (so no camera-1 perturbation changes its
geometry) while the camera-2 direction family varies with the index; column 0
perturbs only camera 1, so the column is zero at row 0. -/
theorem c4_jacobian_columns_witness :
    scaledTriangulationJacobian (fun a b c d => fun i => a i + b i + c i + d i)
      1 (fun _ => fun _ => 1) (fun _ => fun _ => 2) (fun n => fun _ => (n : ℚ))
      (fun _ => fun _ => 3) 0 0 = 0 :=
  (c4_jacobian_columns (fun a b c d => fun i => a i + b i + c i + d i) 1
      (fun _ => fun _ => 1) (fun _ => fun _ => 2) (fun n => fun _ => (n : ℚ))
      (fun _ => fun _ => 3) 0).2.2.1 (by norm_num) rfl rfl rfl rfl 0

/-!
## Scaled satellite covariance assembly

Embeds `insertBlock` and `scaledSatelliteCovariance` in `Covariance.cc`,
lines 251-333.  The interpolated covariance inputs are the 6 upper-triangular
values of a 3×3 position covariance (`SAT_POS_COV_SIZE`) and the 10
upper-triangular values of a 4×4 orientation covariance
(`SAT_QUAT_COV_SIZE`), supplied in the DigitalGlobe order c11, c12, ...,
c22, c23, ...; `pf` and `qf` are the position and orientation covariance
weighting factors from the stereo settings (default 1).  The 14×14 matrix is
modelled as a total map on pairs of natural indices; the source allocates it
as 14×14 and zero-initializes it.
-/

/-- Number of supplied position covariance values (upper triangle of 3×3). -/
def SAT_POS_COV_SIZE : ℕ := 6

/-- Number of supplied orientation covariance values (upper triangle of
4×4). -/
def SAT_QUAT_COV_SIZE : ℕ := 10

/-- Write of one matrix entry, `C(i, j) = v`. -/
def setEntry (C : ℕ → ℕ → ℚ) (i j : ℕ) (v : ℚ) : ℕ → ℕ → ℚ :=
  fun r c => if r = i ∧ c = j then v else C r c

/-- Inner loop of `insertBlock`: for fixed `row`, writes the symmetric pair
of entries for columns from `col` over `len` steps, threading the running
counter into the input-value array. -/
def insertBlockRow (start : ℕ) (inputVals : ℕ → ℚ) (row : ℕ)
    (st : ℕ × (ℕ → ℕ → ℚ)) (col len : ℕ) : ℕ × (ℕ → ℕ → ℚ) :=
  match len with
  | 0 => st
  | Nat.succ n =>
    insertBlockRow start inputVals row
      (st.1 + 1,
       setEntry (setEntry st.2 (start + row) (start + col) (inputVals st.1))
         (start + col) (start + row) (inputVals st.1))
      (col + 1) n

/-- Outer loop of `insertBlock`: rows from `row` over `len` steps, each row
covering columns from `row` to `size - 1`. -/
def insertBlockLoop (start size : ℕ) (inputVals : ℕ → ℚ)
    (st : ℕ × (ℕ → ℕ → ℚ)) (row len : ℕ) : ℕ × (ℕ → ℕ → ℚ) :=
  match len with
  | 0 => st
  | Nat.succ n =>
    insertBlockLoop start size inputVals
      (insertBlockRow start inputVals row st row (size - row)) (row + 1) n

/-- Mirror-insertion of a symmetric block of the given size at the diagonal
offset `start`, from upper-triangular values in DigitalGlobe order. -/
def insertBlock (start size : ℕ) (inputVals : ℕ → ℚ) (C : ℕ → ℕ → ℚ) :
    ℕ → ℕ → ℚ :=
  (insertBlockLoop start size inputVals (0, C) 0 size).2

/-- The scaled 14×14 input covariance: the four interpolated covariance
blocks, each value multiplied by its weighting factor and divided by the
square of the matching perturbation step, inserted at diagonal offsets 0, 3,
7 and 10 into the zero matrix. -/
def scaledSatelliteCovariance (pf qf : ℚ) (p_cov1 q_cov1 p_cov2 q_cov2 : ℕ → ℚ) :
    ℕ → ℕ → ℚ :=
  let p1 := fun ip => pf * p_cov1 ip / (deltaPosition * deltaPosition)
  let p2 := fun ip => pf * p_cov2 ip / (deltaPosition * deltaPosition)
  let q1 := fun iq => qf * q_cov1 iq / (deltaQuat * deltaQuat)
  let q2 := fun iq => qf * q_cov2 iq / (deltaQuat * deltaQuat)
  insertBlock 10 4 q2
    (insertBlock 7 3 p2
      (insertBlock 3 4 q1
        (insertBlock 0 3 p1 (fun _ _ => 0))))

/-- Number of upper-triangular values stored before row `r0` when rows from
`row` onward of a symmetric block of the given size are walked in the
DigitalGlobe order c11, c12, ..., c22, c23, ...: row `r1` stores
`size - r1` values. -/
def rowOffset (size row r0 : ℕ) : ℕ :=
  ((List.range' row (r0 - row)).map (fun r1 => size - r1)).sum

/-- Position within the DigitalGlobe upper-triangular storage order of the
entry `(r, c)` of a symmetric block of the given size. -/
def symUpperIndex (size r c : ℕ) : ℕ :=
  rowOffset size 0 (min r c) + (max r c - min r c)

lemma setEntry_ne {C : ℕ → ℕ → ℚ} {i j r c : ℕ} (v : ℚ)
    (h : ¬(r = i ∧ c = j)) : setEntry C i j v r c = C r c :=
  if_neg h

lemma insertBlockRow_fst (start : ℕ) (v : ℕ → ℚ) (row : ℕ)
    (st : ℕ × (ℕ → ℕ → ℚ)) (col len : ℕ) :
    (insertBlockRow start v row st col len).1 = st.1 + len := by
  induction len generalizing st col with
  | zero => rfl
  | succ n ih =>
    rw [insertBlockRow, ih]
    omega

lemma insertBlockRow_untouched (start : ℕ) (v : ℕ → ℚ) (row : ℕ)
    (st : ℕ × (ℕ → ℕ → ℚ)) (col len r c : ℕ)
    (h : ∀ c0, col ≤ c0 → c0 < col + len →
      ¬((r = start + row ∧ c = start + c0) ∨
        (r = start + c0 ∧ c = start + row))) :
    (insertBlockRow start v row st col len).2 r c = st.2 r c := by
  induction len generalizing st col with
  | zero => rfl
  | succ n ih =>
    rw [insertBlockRow, ih]
    · have hcol := h col (by omega) (by omega)
      dsimp only
      rw [setEntry_ne (v st.1)
          (by omega : ¬(r = start + col ∧ c = start + row)),
        setEntry_ne (v st.1)
          (by omega : ¬(r = start + row ∧ c = start + col))]
    · intro c0 h1 h2
      exact h c0 (by omega) (by omega)

lemma insertBlockRow_written (start : ℕ) (v : ℕ → ℚ) (row : ℕ)
    (st : ℕ × (ℕ → ℕ → ℚ)) (col len c0 : ℕ) (h1 : col ≤ c0)
    (h2 : c0 < col + len) :
    (insertBlockRow start v row st col len).2 (start + row) (start + c0) =
      v (st.1 + (c0 - col)) ∧
    (insertBlockRow start v row st col len).2 (start + c0) (start + row) =
      v (st.1 + (c0 - col)) := by
  induction len generalizing st col with
  | zero => omega
  | succ n ih =>
    rw [insertBlockRow]
    by_cases hc : c0 = col
    · subst hc
      constructor
      · rw [insertBlockRow_untouched]
        · dsimp only
          simp only [setEntry]
          split_ifs <;> first | omega | (exact congrArg v (by omega)) | simp_all
        · intro c1 hc1 hc2
          omega
      · rw [insertBlockRow_untouched]
        · dsimp only
          simp only [setEntry]
          split_ifs <;> first | omega | (exact congrArg v (by omega)) | simp_all
        · intro c1 hc1 hc2
          omega
    · have hv : st.1 + 1 + (c0 - (col + 1)) = st.1 + (c0 - col) := by omega
      have hrec := ih
        (st.1 + 1,
         setEntry (setEntry st.2 (start + row) (start + col) (v st.1))
           (start + col) (start + row) (v st.1))
        (col + 1) (by omega) (by omega)
      dsimp only at hrec
      rw [hv] at hrec
      exact hrec

lemma insertBlockLoop_untouched (start size : ℕ) (v : ℕ → ℚ)
    (st : ℕ × (ℕ → ℕ → ℚ)) (row len r c : ℕ)
    (h : ∀ r0 c0, row ≤ r0 → r0 < row + len → r0 ≤ c0 → c0 < size →
      ¬((r = start + r0 ∧ c = start + c0) ∨
        (r = start + c0 ∧ c = start + r0))) :
    (insertBlockLoop start size v st row len).2 r c = st.2 r c := by
  induction len generalizing st row with
  | zero => rfl
  | succ n ih =>
    rw [insertBlockLoop, ih]
    · apply insertBlockRow_untouched
      intro c0 hc1 hc2
      exact h row c0 (by omega) (by omega) (by omega) (by omega)
    · intro r0 c0 h1 h2 h3 h4
      exact h r0 c0 (by omega) (by omega) h3 h4

lemma rowOffset_self (size row : ℕ) : rowOffset size row row = 0 := by
  unfold rowOffset
  rw [Nat.sub_self]
  rfl

lemma rowOffset_step (size row r0 : ℕ) (h : row < r0) :
    rowOffset size row r0 = (size - row) + rowOffset size (row + 1) r0 := by
  unfold rowOffset
  obtain ⟨k, hk⟩ : ∃ k, r0 - row = k + 1 := ⟨r0 - row - 1, by omega⟩
  rw [hk, List.range'_succ]
  have hk2 : r0 - (row + 1) = k := by omega
  rw [hk2, List.map_cons, List.sum_cons]

lemma insertBlockLoop_written (start size : ℕ) (v : ℕ → ℚ)
    (st : ℕ × (ℕ → ℕ → ℚ)) (row len r0 c0 : ℕ) (h1 : row ≤ r0)
    (h2 : r0 < row + len) (h3 : r0 ≤ c0) (h4 : c0 < size) :
    (insertBlockLoop start size v st row len).2 (start + r0) (start + c0) =
      v (st.1 + rowOffset size row r0 + (c0 - r0)) ∧
    (insertBlockLoop start size v st row len).2 (start + c0) (start + r0) =
      v (st.1 + rowOffset size row r0 + (c0 - r0)) := by
  induction len generalizing st row with
  | zero => omega
  | succ n ih =>
    rw [insertBlockLoop]
    by_cases hr : r0 = row
    · subst hr
      rw [rowOffset_self]
      have hw := insertBlockRow_written start v r0 st r0 (size - r0) c0 h3
        (by omega)
      constructor
      · rw [insertBlockLoop_untouched]
        · rw [hw.1]
          exact congrArg v (by omega)
        · intro r1 c1 hr1 hr2 hr3 hr4
          omega
      · rw [insertBlockLoop_untouched]
        · rw [hw.2]
          exact congrArg v (by omega)
        · intro r1 c1 hr1 hr2 hr3 hr4
          omega
    · have hrow : row < r0 := by omega
      have hst := insertBlockRow_fst start v row st row (size - row)
      have := ih (insertBlockRow start v row st row (size - row)) (row + 1)
        (by omega) (by omega)
      rw [hst] at this
      have hv : st.1 + (size - row) + rowOffset size (row + 1) r0 + (c0 - r0)
          = st.1 + rowOffset size row r0 + (c0 - r0) := by
        rw [rowOffset_step size row r0 hrow]
        omega
      rw [hv] at this
      exact this

lemma insertBlock_out (start size : ℕ) (v : ℕ → ℚ) (C : ℕ → ℕ → ℚ)
    (r c : ℕ)
    (h : r < start ∨ start + size ≤ r ∨ c < start ∨ start + size ≤ c) :
    insertBlock start size v C r c = C r c := by
  unfold insertBlock
  rw [insertBlockLoop_untouched]
  intro r0 c0 h1 h2 h3 h4
  omega

lemma insertBlock_in (start size : ℕ) (v : ℕ → ℚ) (C : ℕ → ℕ → ℚ)
    (r c : ℕ) (h1 : start ≤ r) (h2 : r < start + size) (h3 : start ≤ c)
    (h4 : c < start + size) :
    insertBlock start size v C r c =
      v (symUpperIndex size (r - start) (c - start)) := by
  unfold insertBlock symUpperIndex
  rcases le_total r c with hrc | hrc
  · have hmin : min (r - start) (c - start) = r - start := by omega
    have hmax : max (r - start) (c - start) = c - start := by omega
    rw [hmin, hmax]
    have hw := (insertBlockLoop_written start size v (0, C) 0 size
      (r - start) (c - start) (by omega) (by omega) (by omega) (by omega)).1
    have hr : start + (r - start) = r := by omega
    have hc : start + (c - start) = c := by omega
    rw [hr, hc] at hw
    rw [hw]
    congr 1
    omega
  · have hmin : min (r - start) (c - start) = c - start := by omega
    have hmax : max (r - start) (c - start) = r - start := by omega
    rw [hmin, hmax]
    have hw := (insertBlockLoop_written start size v (0, C) 0 size
      (c - start) (r - start) (by omega) (by omega) (by omega) (by omega)).2
    have hr : start + (r - start) = r := by omega
    have hc : start + (c - start) = c := by omega
    rw [hr, hc] at hw
    rw [hw]
    congr 1
    omega

/-- The 14×14 covariance prescribed by the words of the claim: zero outside
four diagonal blocks at offsets 0 (3×3 camera-1 position), 3 (4×4 camera-1
orientation), 7 (3×3 camera-2 position) and 10 (4×4 camera-2 orientation),
each block filled from the supplied upper-triangular values mirrored to the
lower triangle, position entries weighted by `pf / deltaPosition^2` and
orientation entries by `qf / deltaQuat^2`. -/
def claimSatelliteCovariance (pf qf : ℚ)
    (p_cov1 q_cov1 p_cov2 q_cov2 : ℕ → ℚ) (i j : ℕ) : ℚ :=
  if i < 3 ∧ j < 3 then
    pf * p_cov1 (symUpperIndex 3 i j) / (deltaPosition * deltaPosition)
  else if 3 ≤ i ∧ i < 7 ∧ 3 ≤ j ∧ j < 7 then
    qf * q_cov1 (symUpperIndex 4 (i - 3) (j - 3)) / (deltaQuat * deltaQuat)
  else if 7 ≤ i ∧ i < 10 ∧ 7 ≤ j ∧ j < 10 then
    pf * p_cov2 (symUpperIndex 3 (i - 7) (j - 7)) /
      (deltaPosition * deltaPosition)
  else if 10 ≤ i ∧ i < 14 ∧ 10 ≤ j ∧ j < 14 then
    qf * q_cov2 (symUpperIndex 4 (i - 10) (j - 10)) / (deltaQuat * deltaQuat)
  else 0

/-- Claim C5: inside the 14×14 extent the assembled covariance agrees
entrywise with the block-diagonal, mirrored, rescaled matrix described by the
claim, and it is symmetric. -/
theorem c5_satellite_covariance (pf qf : ℚ)
    (p_cov1 q_cov1 p_cov2 q_cov2 : ℕ → ℚ) :
    (∀ i j, i < 14 → j < 14 →
      scaledSatelliteCovariance pf qf p_cov1 q_cov1 p_cov2 q_cov2 i j =
        claimSatelliteCovariance pf qf p_cov1 q_cov1 p_cov2 q_cov2 i j) ∧
    (∀ i j, i < 14 → j < 14 →
      scaledSatelliteCovariance pf qf p_cov1 q_cov1 p_cov2 q_cov2 i j =
        scaledSatelliteCovariance pf qf p_cov1 q_cov1 p_cov2 q_cov2 j i) := by
  have key : ∀ i j, i < 14 → j < 14 →
      scaledSatelliteCovariance pf qf p_cov1 q_cov1 p_cov2 q_cov2 i j =
        claimSatelliteCovariance pf qf p_cov1 q_cov1 p_cov2 q_cov2 i j := by
    intro i j hi hj
    unfold scaledSatelliteCovariance claimSatelliteCovariance
    by_cases h1 : i < 3 ∧ j < 3
    · rw [insertBlock_out 10 4 _ _ i j (by omega),
        insertBlock_out 7 3 _ _ i j (by omega),
        insertBlock_out 3 4 _ _ i j (by omega),
        insertBlock_in 0 3 _ _ i j (by omega) (by omega) (by omega) (by omega),
        if_pos h1]
      simp only [Nat.sub_zero]
    · rw [if_neg h1]
      by_cases h2 : 3 ≤ i ∧ i < 7 ∧ 3 ≤ j ∧ j < 7
      · rw [insertBlock_out 10 4 _ _ i j (by omega),
          insertBlock_out 7 3 _ _ i j (by omega),
          insertBlock_in 3 4 _ _ i j (by omega) (by omega) (by omega)
            (by omega),
          if_pos h2]
      · rw [if_neg h2]
        by_cases h3 : 7 ≤ i ∧ i < 10 ∧ 7 ≤ j ∧ j < 10
        · rw [insertBlock_out 10 4 _ _ i j (by omega),
            insertBlock_in 7 3 _ _ i j (by omega) (by omega) (by omega)
              (by omega),
            if_pos h3]
        · rw [if_neg h3]
          by_cases h4 : 10 ≤ i ∧ i < 14 ∧ 10 ≤ j ∧ j < 14
          · rw [insertBlock_in 10 4 _ _ i j (by omega) (by omega) (by omega)
                (by omega),
              if_pos h4]
          · rw [if_neg h4,
              insertBlock_out 10 4 _ _ i j (by omega),
              insertBlock_out 7 3 _ _ i j (by omega),
              insertBlock_out 3 4 _ _ i j (by omega),
              insertBlock_out 0 3 _ _ i j (by omega)]
  have claim_symm : ∀ i j,
      claimSatelliteCovariance pf qf p_cov1 q_cov1 p_cov2 q_cov2 i j =
        claimSatelliteCovariance pf qf p_cov1 q_cov1 p_cov2 q_cov2 j i := by
    intro i j
    have hsym : ∀ size a b, symUpperIndex size a b = symUpperIndex size b a := by
      intro size a b
      unfold symUpperIndex
      rw [min_comm, max_comm]
    unfold claimSatelliteCovariance
    by_cases h1 : i < 3 ∧ j < 3
    · rw [if_pos h1, if_pos (by omega : j < 3 ∧ i < 3), hsym]
    · rw [if_neg h1, if_neg (by omega : ¬(j < 3 ∧ i < 3))]
      by_cases h2 : 3 ≤ i ∧ i < 7 ∧ 3 ≤ j ∧ j < 7
      · rw [if_pos h2, if_pos (by omega : 3 ≤ j ∧ j < 7 ∧ 3 ≤ i ∧ i < 7),
          hsym]
      · rw [if_neg h2, if_neg (by omega : ¬(3 ≤ j ∧ j < 7 ∧ 3 ≤ i ∧ i < 7))]
        by_cases h3 : 7 ≤ i ∧ i < 10 ∧ 7 ≤ j ∧ j < 10
        · rw [if_pos h3,
            if_pos (by omega : 7 ≤ j ∧ j < 10 ∧ 7 ≤ i ∧ i < 10), hsym]
        · rw [if_neg h3,
            if_neg (by omega : ¬(7 ≤ j ∧ j < 10 ∧ 7 ≤ i ∧ i < 10))]
          by_cases h4 : 10 ≤ i ∧ i < 14 ∧ 10 ≤ j ∧ j < 14
          · rw [if_pos h4,
              if_pos (by omega : 10 ≤ j ∧ j < 14 ∧ 10 ≤ i ∧ i < 14), hsym]
          · rw [if_neg h4,
              if_neg (by omega : ¬(10 ≤ j ∧ j < 14 ∧ 10 ≤ i ∧ i < 14))]
  refine ⟨key, fun i j hi hj => ?_⟩
  rw [key i j hi hj, key j i hj hi, claim_symm]

/-- Witness for claim C5 at concrete indices: at entry `(4, 3)` (inside the
camera-1 orientation block, below the diagonal) the assembled matrix holds
the mirrored second orientation value scaled by `qf / deltaQuat^2`, and at
entry `(0, 5)` (outside every block) it is zero; here `pf = qf = 1` and each
covariance array is the identity on indices. -/
theorem c5_satellite_covariance_witness :
    scaledSatelliteCovariance 1 1 (fun k => k) (fun k => k) (fun k => k)
        (fun k => k) 4 3 =
      claimSatelliteCovariance 1 1 (fun k => k) (fun k => k) (fun k => k)
        (fun k => k) 4 3 ∧
    scaledSatelliteCovariance 1 1 (fun k => k) (fun k => k) (fun k => k)
        (fun k => k) 0 5 =
      claimSatelliteCovariance 1 1 (fun k => k) (fun k => k) (fun k => k)
        (fun k => k) 0 5 :=
  ⟨(c5_satellite_covariance 1 1 (fun k => k) (fun k => k) (fun k => k)
      (fun k => k)).1 4 3 (by omega) (by omega),
   (c5_satellite_covariance 1 1 (fun k => k) (fun k => k) (fun k => k)
      (fun k => k)).1 0 5 (by omega) (by omega)⟩

/-!
## Covariance propagation

Embeds `propagateCovariance` in `Covariance.cc`, lines 336-383.  The source
computes `P = J * C * J^T`, reports `ans[0] = sqrt(det(H))` for the
upper-left 2×2 block `H` of `P` and `ans[1] = P(2,2)`, and throws when
`ans != ans`, i.e. when a NaN was produced.  Over exact rationals the square
root is not representable, so the first component is reported as its square
`det(H)`; `sqrt` is a strictly monotone bijection on the nonnegative reals,
and in exact arithmetic the unique NaN source in this function is
`sqrt` of a negative determinant, so the throw is modelled by `none` exactly
when `det(H) < 0`.
-/

lemma scaledSatelliteCovariance_zero (pf qf : ℚ) (i j : ℕ) :
    scaledSatelliteCovariance pf qf (fun _ => 0) (fun _ => 0) (fun _ => 0)
      (fun _ => 0) i j = 0 := by
  unfold scaledSatelliteCovariance
  by_cases h4 : 10 ≤ i ∧ i < 14 ∧ 10 ≤ j ∧ j < 14
  · rw [insertBlock_in 10 4 _ _ i j (by omega) (by omega) (by omega)
      (by omega)]
    simp
  · rw [insertBlock_out 10 4 _ _ i j (by omega)]
    by_cases h3 : 7 ≤ i ∧ i < 10 ∧ 7 ≤ j ∧ j < 10
    · rw [insertBlock_in 7 3 _ _ i j (by omega) (by omega) (by omega)
        (by omega)]
      simp
    · rw [insertBlock_out 7 3 _ _ i j (by omega)]
      by_cases h2 : 3 ≤ i ∧ i < 7 ∧ 3 ≤ j ∧ j < 7
      · rw [insertBlock_in 3 4 _ _ i j (by omega) (by omega) (by omega)
          (by omega)]
        simp
      · rw [insertBlock_out 3 4 _ _ i j (by omega)]
        by_cases h1 : i < 3 ∧ j < 3
        · rw [insertBlock_in 0 3 _ _ i j (by omega) (by omega) (by omega)
            (by omega)]
          simp
        · rw [insertBlock_out 0 3 _ _ i j (by omega)]

/-- Propagation step: `P = J * C * J^T`, the two scalar summaries (squared
horizontal uncertainty `det(H)` and vertical uncertainty `P(2,2)`), and the
NaN check that throws (returns `none`) exactly when the square root of a
negative determinant would be taken. -/
def propagateCovarianceResult (J : Matrix (Fin 3) (Fin 14) ℚ)
    (C : Matrix (Fin 14) (Fin 14) ℚ) : Option (ℚ × ℚ) :=
  let P := J * C * J.transpose
  let detH := P 0 0 * P 1 1 - P 0 1 * P 1 0
  if detH < 0 then none else some (detH, P 2 2)

/-- Full propagation pipeline: the scaled Jacobian and the scaled input
covariance are built by their embedded producers and fed through the sandwich
formula, as in the source. -/
def propagateCovariance
    (triangulate : (Fin 3 → ℚ) → (Fin 3 → ℚ) → (Fin 3 → ℚ) → (Fin 3 → ℚ) →
      (Fin 3 → ℚ))
    (EcefToNed : Matrix (Fin 3) (Fin 3) ℚ)
    (d1 c1 d2 c2 : ℕ → Fin 3 → ℚ) (pf qf : ℚ)
    (p_cov1 q_cov1 p_cov2 q_cov2 : ℕ → ℚ) : Option (ℚ × ℚ) :=
  let J := scaledTriangulationJacobian triangulate EcefToNed d1 c1 d2 c2
  let C := Matrix.of fun i j : Fin 14 =>
    scaledSatelliteCovariance pf qf p_cov1 q_cov1 p_cov2 q_cov2 i.val j.val
  propagateCovarianceResult J C

lemma propagateCovarianceResult_zero_cov (J : Matrix (Fin 3) (Fin 14) ℚ) :
    propagateCovarianceResult J 0 = some (0, 0) := by
  unfold propagateCovarianceResult
  rw [Matrix.mul_zero, Matrix.zero_mul]
  norm_num

/-- Claim C6: the propagation computes `P = J * C * J^T` and returns the pair
of the (squared) horizontal uncertainty `det(H)` of the upper-left 2×2 block
and the vertical uncertainty `P(2,2)`; it fails (signalling no valid
uncertainty data) exactly when the result would be non-finite, i.e. when the
square root would be taken of a negative determinant; and with an all-zero
input covariance it returns `(0, 0)` without failing, both at the level of
the propagation step and through the full pipeline with all-zero covariance
arrays. -/
theorem c6_propagate_covariance (J : Matrix (Fin 3) (Fin 14) ℚ)
    (C : Matrix (Fin 14) (Fin 14) ℚ) :
    (∀ x y, propagateCovarianceResult J C = some (x, y) →
      x = (J * C * J.transpose) 0 0 * (J * C * J.transpose) 1 1 -
          (J * C * J.transpose) 0 1 * (J * C * J.transpose) 1 0 ∧
      y = (J * C * J.transpose) 2 2) ∧
    (propagateCovarianceResult J C = none ↔
      (J * C * J.transpose) 0 0 * (J * C * J.transpose) 1 1 -
        (J * C * J.transpose) 0 1 * (J * C * J.transpose) 1 0 < 0) ∧
    (propagateCovarianceResult J 0 = some (0, 0)) ∧
    (∀ triangulate EcefToNed d1 c1 d2 c2 pf qf,
      propagateCovariance triangulate EcefToNed d1 c1 d2 c2 pf qf
        (fun _ => 0) (fun _ => 0) (fun _ => 0) (fun _ => 0) = some (0, 0)) := by
  refine ⟨?_, ?_, propagateCovarianceResult_zero_cov J, ?_⟩
  · intro x y h
    simp only [propagateCovarianceResult] at h
    split at h
    · exact absurd h (by simp)
    · simp only [Option.some.injEq, Prod.mk.injEq] at h
      exact ⟨h.1.symm, h.2.symm⟩
  · simp only [propagateCovarianceResult]
    split
    · rename_i hlt
      exact ⟨fun _ => hlt, fun _ => rfl⟩
    · rename_i hge
      exact ⟨fun hcontra => absurd hcontra (by simp), fun hlt => absurd hlt hge⟩
  · intro triangulate EcefToNed d1 c1 d2 c2 pf qf
    unfold propagateCovariance
    have hC : (Matrix.of fun i j : Fin 14 =>
        scaledSatelliteCovariance pf qf (fun _ => 0) (fun _ => 0) (fun _ => 0)
          (fun _ => 0) i.val j.val) = (0 : Matrix (Fin 14) (Fin 14) ℚ) := by
      ext i j
      exact scaledSatelliteCovariance_zero pf qf i.val j.val
    rw [hC]
    exact propagateCovarianceResult_zero_cov _

/-- Witness for claim C6 at the zero Jacobian and zero covariance: the
propagation step succeeds with the pair `(0, 0)`, and the returned vertical
component equals `P(2,2)` of the zero product. -/
theorem c6_propagate_covariance_witness :
    propagateCovarianceResult (0 : Matrix (Fin 3) (Fin 14) ℚ) 0 =
      some (0, 0) ∧
    (0 : ℚ) = ((0 : Matrix (Fin 3) (Fin 14) ℚ) *
      (0 : Matrix (Fin 14) (Fin 14) ℚ) *
      (0 : Matrix (Fin 3) (Fin 14) ℚ).transpose) 2 2 := by
  have h := c6_propagate_covariance (0 : Matrix (Fin 3) (Fin 14) ℚ) 0
  have hsome : propagateCovarianceResult (0 : Matrix (Fin 3) (Fin 14) ℚ) 0 =
      some (0, 0) := h.2.2.1
  exact ⟨hsome, (h.1 0 0 hsome).2⟩

/-!
## NaN-aware model of the Jacobian and the propagation

Claims about non-finite values need the IEEE NaN behaviour that the exact
rational model above cannot express.  `FQ` adjoins a NaN (`none`) to the
rationals; every arithmetic operation propagates it, as IEEE arithmetic does.
`scaledTriangulationJacobianFQ` is `scaledTriangulationJacobian` together
with the only finiteness check the source performs (`tri_nominal !=
tri_nominal`, which holds exactly when some component is NaN, lines 162-169
of `Covariance.cc`); the perturbed triangulations at lines 218-222 are used
unchecked.  `propagateCovarianceFQ` is `propagateCovariance` with the final
`ans != ans` check: `none` is returned exactly when one of the two scalar
summaries is NaN (including the square root of a negative determinant).
-/

/-- Double value: a finite rational or NaN. -/
abbrev FQ := Option ℚ

/-- NaN-propagating addition. -/
def fadd : FQ → FQ → FQ
  | some a, some b => some (a + b)
  | _, _ => none

/-- NaN-propagating subtraction. -/
def fsub : FQ → FQ → FQ
  | some a, some b => some (a - b)
  | _, _ => none

/-- NaN-propagating multiplication. -/
def fmul : FQ → FQ → FQ
  | some a, some b => some (a * b)
  | _, _ => none

/-- NaN-propagating halving (`/ 2.0` in the source). -/
def fdiv2 : FQ → FQ
  | some a => some (a / 2)
  | none => none

/-- Sum of a list of possibly-NaN values. -/
def fsum (l : List FQ) : FQ := l.foldr fadd (some 0)

/-- The `v != v` NaN test of the source on a 3-vector: a vector compares
unequal to itself exactly when some component is NaN, so `vecFinite` is the
negation of that test. -/
def vecFinite (v : Fin 3 → FQ) : Bool :=
  (v 0).isSome && (v 1).isSome && (v 2).isSome

/-- Matrix-vector product of the exact NED rotation with a possibly-NaN
vector. -/
def fmatVec (E : Matrix (Fin 3) (Fin 3) ℚ) (v : Fin 3 → FQ) : Fin 3 → FQ :=
  fun r => fsum ((List.finRange 3).map (fun k => fmul (some (E r k)) (v k)))

lemma fadd_none_right (x : FQ) : fadd x none = none := by
  cases x <;> rfl

lemma fmul_none_left (y : FQ) : fmul none y = none := by
  cases y <;> rfl

lemma fmul_none_right (x : FQ) : fmul x none = none := by
  cases x <;> rfl

lemma fsub_none_left (y : FQ) : fsub none y = none := by
  cases y <;> rfl

lemma fsub_none_right (x : FQ) : fsub x none = none := by
  cases x <;> rfl

lemma fsum_none {l : List FQ} (h : none ∈ l) : fsum l = none := by
  induction l with
  | nil => cases h
  | cons a t ih =>
    rcases List.mem_cons.mp h with rfl | hmem
    · show fadd none (fsum t) = none
      cases fsum t <;> rfl
    · show fadd a (fsum t) = none
      rw [ih hmem]
      exact fadd_none_right a

lemma fmatVec_none (E : Matrix (Fin 3) (Fin 3) ℚ) (v : Fin 3 → FQ)
    (r k : Fin 3) (hk : v k = none) : fmatVec E v r = none := by
  unfold fmatVec
  apply fsum_none
  refine List.mem_map.mpr ⟨k, List.mem_finRange k, ?_⟩
  rw [hk]
  exact fmul_none_right _

/-- NaN-aware scaled triangulation Jacobian: the source checks only the
nominal triangulation for NaN (throwing the `Could not triangulate` error)
and computes every column with unchecked perturbed triangulations. -/
def scaledTriangulationJacobianFQ
    (triangulate : (Fin 3 → ℚ) → (Fin 3 → ℚ) → (Fin 3 → ℚ) → (Fin 3 → ℚ) →
      (Fin 3 → FQ))
    (EcefToNed : Matrix (Fin 3) (Fin 3) ℚ)
    (cam1_dirs cam1_ctrs cam2_dirs cam2_ctrs : ℕ → Fin 3 → ℚ) :
    Except String (Matrix (Fin 3) (Fin 14) FQ) :=
  let tri_nominal :=
    triangulate (cam1_dirs 0) (cam1_ctrs 0) (cam2_dirs 0) (cam2_ctrs 0)
  if vecFinite tri_nominal = false then
    Except.error "Could not triangulate."
  else
    Except.ok (Matrix.of fun row coord =>
      let tri_plus :=
        triangulate (cam1_dirs (selPlus1 coord)) (cam1_ctrs (selPlus1 coord))
          (cam2_dirs (selPlus2 coord)) (cam2_ctrs (selPlus2 coord))
      let tri_minus :=
        triangulate (cam1_dirs (selMinus1 coord)) (cam1_ctrs (selMinus1 coord))
          (cam2_dirs (selMinus2 coord)) (cam2_ctrs (selMinus2 coord))
      let ned_plus :=
        fmatVec EcefToNed (fun i => fsub (tri_plus i) (tri_nominal i))
      let ned_minus :=
        fmatVec EcefToNed (fun i => fsub (tri_minus i) (tri_nominal i))
      fdiv2 (fsub (ned_plus row) (ned_minus row)))

/-- Entry `(r, c)` of `P = J * C * J^T` in the NaN-aware model. -/
def sandwichEntry (J : Matrix (Fin 3) (Fin 14) FQ)
    (C : Matrix (Fin 14) (Fin 14) ℚ) (r c : Fin 3) : FQ :=
  fsum ((List.finRange 14).map (fun k =>
    fsum ((List.finRange 14).map (fun l =>
      fmul (fmul (J r k) (some (C k l))) (J c l)))))

/-- NaN-aware covariance propagation: the two scalar summaries and the final
`ans != ans` check of the source; `none` is returned exactly when one of the
summaries is NaN, which includes the square root of a negative
determinant. -/
def propagateCovarianceFQ (J : Matrix (Fin 3) (Fin 14) FQ)
    (C : Matrix (Fin 14) (Fin 14) ℚ) : Option (ℚ × ℚ) :=
  match fsub (fmul (sandwichEntry J C 0 0) (sandwichEntry J C 1 1))
      (fmul (sandwichEntry J C 0 1) (sandwichEntry J C 1 0)),
    sandwichEntry J C 2 2 with
  | some dv, some p22 => if dv < 0 then none else some (dv, p22)
  | _, _ => none

lemma sandwichEntry_none (J : Matrix (Fin 3) (Fin 14) FQ)
    (C : Matrix (Fin 14) (Fin 14) ℚ) (r c : Fin 3) (c0 : Fin 14)
    (h : J r c0 = none) : sandwichEntry J C r c = none := by
  unfold sandwichEntry
  apply fsum_none
  refine List.mem_map.mpr ⟨c0, List.mem_finRange c0, ?_⟩
  apply fsum_none
  refine List.mem_map.mpr ⟨0, List.mem_finRange 0, ?_⟩
  rw [h, fmul_none_left, fmul_none_left]

/-- Claim C10: the Jacobian engine verifies finiteness only of the nominal
triangulation: whenever the nominal camera pair triangulates to a finite
point, the function returns a Jacobian without raising any error, even when a
plus- or minus-perturbed triangulation yields a non-finite point, in which
case the corresponding Jacobian column silently contains NaN; the nominal
check alone can fail the function; and a NaN anywhere in the Jacobian is
detected by the NaN check on the two scalar summaries in the covariance
propagation, which then signals no valid data. -/
theorem c10_nominal_only_finiteness_check
    (triangulate : (Fin 3 → ℚ) → (Fin 3 → ℚ) → (Fin 3 → ℚ) → (Fin 3 → ℚ) →
      (Fin 3 → FQ))
    (EcefToNed : Matrix (Fin 3) (Fin 3) ℚ)
    (d1 c1 d2 c2 : ℕ → Fin 3 → ℚ) :
    (vecFinite (triangulate (d1 0) (c1 0) (d2 0) (c2 0)) = true →
      ∃ J, scaledTriangulationJacobianFQ triangulate EcefToNed d1 c1 d2 c2 =
          Except.ok J ∧
        (∀ coord : Fin 14, ∀ k : Fin 3,
          triangulate (d1 (selPlus1 coord)) (c1 (selPlus1 coord))
              (d2 (selPlus2 coord)) (c2 (selPlus2 coord)) k = none →
          ∀ row, J row coord = none) ∧
        (∀ coord : Fin 14, ∀ k : Fin 3,
          triangulate (d1 (selMinus1 coord)) (c1 (selMinus1 coord))
              (d2 (selMinus2 coord)) (c2 (selMinus2 coord)) k = none →
          ∀ row, J row coord = none)) ∧
    (vecFinite (triangulate (d1 0) (c1 0) (d2 0) (c2 0)) = false →
      scaledTriangulationJacobianFQ triangulate EcefToNed d1 c1 d2 c2 =
        Except.error "Could not triangulate.") ∧
    (∀ (J : Matrix (Fin 3) (Fin 14) FQ) (C : Matrix (Fin 14) (Fin 14) ℚ)
      (r : Fin 3) (c0 : Fin 14), J r c0 = none →
      propagateCovarianceFQ J C = none) := by
  refine ⟨?_, ?_, ?_⟩
  · intro hfin
    simp only [scaledTriangulationJacobianFQ]
    rw [hfin, if_neg (by simp)]
    refine ⟨_, rfl, ?_, ?_⟩
    · intro coord k hk row
      simp only [Matrix.of_apply]
      rw [fmatVec_none EcefToNed
          (fun i => fsub
            (triangulate (d1 (selPlus1 coord.val)) (c1 (selPlus1 coord.val))
              (d2 (selPlus2 coord.val)) (c2 (selPlus2 coord.val)) i)
            (triangulate (d1 0) (c1 0) (d2 0) (c2 0) i))
          row k
          (by
            show fsub
              (triangulate (d1 (selPlus1 coord.val)) (c1 (selPlus1 coord.val))
                (d2 (selPlus2 coord.val)) (c2 (selPlus2 coord.val)) k)
              (triangulate (d1 0) (c1 0) (d2 0) (c2 0) k) = none
            rw [hk]
            exact fsub_none_left _),
        fsub_none_left]
      rfl
    · intro coord k hk row
      simp only [Matrix.of_apply]
      rw [fmatVec_none EcefToNed
          (fun i => fsub
            (triangulate (d1 (selMinus1 coord.val)) (c1 (selMinus1 coord.val))
              (d2 (selMinus2 coord.val)) (c2 (selMinus2 coord.val)) i)
            (triangulate (d1 0) (c1 0) (d2 0) (c2 0) i))
          row k
          (by
            show fsub
              (triangulate (d1 (selMinus1 coord.val)) (c1 (selMinus1 coord.val))
                (d2 (selMinus2 coord.val)) (c2 (selMinus2 coord.val)) k)
              (triangulate (d1 0) (c1 0) (d2 0) (c2 0) k) = none
            rw [hk]
            exact fsub_none_left _),
        fsub_none_right]
      rfl
  · intro hfail
    simp only [scaledTriangulationJacobianFQ]
    rw [hfail, if_pos rfl]
  · intro J C r c0 hnan
    fin_cases r
    · have h00 : sandwichEntry J C 0 0 = none :=
        sandwichEntry_none J C 0 0 c0 hnan
      unfold propagateCovarianceFQ
      rw [h00, fmul_none_left, fsub_none_left]
    · have h11 : sandwichEntry J C 1 1 = none :=
        sandwichEntry_none J C 1 1 c0 hnan
      unfold propagateCovarianceFQ
      rw [h11, fmul_none_right, fsub_none_left]
    · have h22 : sandwichEntry J C 2 2 = none :=
        sandwichEntry_none J C 2 2 c0 hnan
      unfold propagateCovarianceFQ
      rw [h22]
      cases fsub (fmul (sandwichEntry J C 0 0) (sandwichEntry J C 1 1))
        (fmul (sandwichEntry J C 0 1) (sandwichEntry J C 1 0)) <;> rfl

/-- Witness for claim C10 at a concrete configuration: the triangulation
returns a finite point exactly when the first component of the first ray is
zero, the camera-1 direction family is the index itself, so the nominal
triangulation (index 0) is finite while the plus-perturbed variant for
column 0 (index 1) is NaN; the function succeeds, the column holds NaN, and
the downstream propagation detects it and signals no valid data. -/
theorem c10_nominal_only_finiteness_check_witness :
    ∃ J, scaledTriangulationJacobianFQ
        (fun a _ _ _ => fun _ => if a 0 = 0 then some 1 else none) 1
        (fun n => fun _ => (n : ℚ)) (fun _ => fun _ => 0) (fun _ => fun _ => 0)
        (fun _ => fun _ => 0) = Except.ok J ∧
      J 0 0 = none ∧ propagateCovarianceFQ J 1 = none := by
  have h := c10_nominal_only_finiteness_check
    (fun a _ _ _ => fun _ => if a 0 = 0 then some 1 else none) 1
    (fun n => fun _ => (n : ℚ)) (fun _ => fun _ => 0) (fun _ => fun _ => 0)
    (fun _ => fun _ => 0)
  obtain ⟨J, hJ, hplus, _⟩ := h.1 (by norm_num [vecFinite])
  have hcol : J 0 0 = none := hplus 0 0 (by norm_num [selPlus1]) 0
  exact ⟨J, hJ, hcol, h.2.2 J 1 0 0 hcol⟩
